import Mathlib

/-!
# Cafe Finder front end: favorites, distance and search logic of `src/App.js`

A shallow embedding of the logic of the `App` component:

* `getDistance` (haversine distance, lines 68-80),
* `handleSearch` (lines 83-100),
* `toggleFavorite` (lines 103-114) and the `favorites` state initializer (lines 42-45),

together with a model of the platform pieces they call: `JSON.stringify`,
`JSON.parse`, `localStorage` and the `Math` object.

Modelling conventions.

* A JavaScript number is an exact decimal `mant / 10 ^ scale` (`JsNum`); every
  finite double is such a decimal and every JSON number literal denotes one.
* A JavaScript string is a Lean `String` (a sequence of Unicode scalar values).
* `undefined` is `none` in `JsVal = Option Json`.
* A cafe record is typed (`Cafe`): its `id` is an integer or a string, as the
  search API delivers it, so `===` on ids is decidable equality.
* `getDistance` is generic in its number type. Its theorems take the real
  numbers, which have no rounding and no `NaN`: they hold of the program only
  where the double computation is exact, as at identical points.
-/

/-! ## Numbers -/

/-- An exact decimal number, the value `mant / 10 ^ scale`, kept in lowest
terms so that equal numbers are equal records (the `===` of JavaScript). -/
structure JsNum where
  mant : Int
  scale : Nat
  canon : scale = 0 ∨ mant % 10 ≠ 0
deriving DecidableEq

namespace JsNum

/-- An integer as a number. -/
def ofInt (n : Int) : JsNum := ⟨n, 0, Or.inl rfl⟩

/-- The number `m / 10 ^ s`, with trailing zeros of the fraction removed. -/
def normalize : Int → Nat → JsNum
  | m, 0 => ⟨m, 0, Or.inl rfl⟩
  | m, s + 1 => if h : m % 10 = 0 then normalize (m / 10) s else ⟨m, s + 1, Or.inr h⟩

/-- The number denoted by a literal with sign `neg`, digits (integer and
fraction part together) of value `n`, `k` fraction digits and exponent `x`. -/
def ofParts (neg : Bool) (n : Nat) (k : Nat) (x : Int) : JsNum :=
  let m : Int := if neg then -(n : Int) else (n : Int)
  let e : Int := x - (k : Int)
  if 0 ≤ e then ofInt (m * 10 ^ e.toNat) else normalize m (-e).toNat

end JsNum

/-! ## JSON values -/

/-- A JSON value, that is a JavaScript value built from `null`, booleans,
numbers, strings, arrays and plain objects (members in insertion order). -/
inductive Json where
  | null
  | bool (b : Bool)
  | num (n : JsNum)
  | str (s : String)
  | arr (elems : List Json)
  | obj (members : List (String × Json))

/-- A JavaScript value as the code meets it: a JSON value or `undefined`. -/
abbrev JsVal := Option Json

/-- The exceptions the modelled code can raise. -/
inductive JsError where
  | syntaxError
  | typeError
deriving DecidableEq

/-! ### Printing (`JSON.stringify`) -/

/-- The decimal digit `d` as a character. -/
def digitChar (d : Nat) : Char := Char.ofNat (48 + d)

/-- The `k` low decimal digits of `n`, most significant first. -/
def padDigits : Nat → Nat → List Nat
  | 0, _ => []
  | k + 1, n => (n / 10 ^ k % 10) :: padDigits k n

/-- Number of decimal digits of `n` (one for `0`), by recursion on a bound. -/
def numDigitsAux : Nat → Nat → Nat
  | 0, _ => 1
  | f + 1, n => if n < 10 then 1 else numDigitsAux f (n / 10) + 1

/-- Number of decimal digits of `n`. -/
def numDigits (n : Nat) : Nat := numDigitsAux n n

/-- Decimal numeral of a natural number, without leading zeros. -/
def printNat (n : Nat) : List Char := (padDigits (numDigits n) n).map digitChar

/-- Decimal numeral of a number: sign, integer part and, when the number is
not an integer, a point and exactly `scale` fraction digits. -/
def printNum (x : JsNum) : List Char :=
  (if x.mant < 0 then [ '-'] else []) ++
    printNat (x.mant.natAbs / 10 ^ x.scale) ++
    (if x.scale = 0 then [] else '.' :: (padDigits x.scale x.mant.natAbs).map digitChar)

/-- The hexadecimal digit `d` (lower case) as a character. -/
def hexChar (d : Nat) : Char := if d < 10 then Char.ofNat (48 + d) else Char.ofNat (87 + d)

/-- The text of one string character inside a JSON string literal: the quote,
the backslash and the control characters are escaped. -/
def escapeChar (c : Char) : List Char :=
  if c = '"' then [ '\\', '"']
  else if c = '\\' then [ '\\', '\\']
  else if c = '\x08' then [ '\\', 'b']
  else if c = '\x0c' then [ '\\', 'f']
  else if c = '\n' then [ '\\', 'n']
  else if c = '\r' then [ '\\', 'r']
  else if c = '\t' then [ '\\', 't']
  else if c.toNat < 32 then [ '\\', 'u', '0', '0', hexChar (c.toNat / 16), hexChar (c.toNat % 16)]
  else [c]

/-- The text of the characters of a string inside a JSON string literal. -/
def escapeChars : List Char → List Char
  | [] => []
  | c :: cs => escapeChar c ++ escapeChars cs

/-- A JSON string literal. -/
def printString (s : String) : List Char := '"' :: escapeChars s.data ++ [ '"']

mutual
/-- The JSON text of a value, without white space. -/
def printValue : Json → List Char
  | .null => [ 'n', 'u', 'l', 'l']
  | .bool b => if b then [ 't', 'r', 'u', 'e'] else [ 'f', 'a', 'l', 's', 'e']
  | .num n => printNum n
  | .str s => printString s
  | .arr xs => '[' :: printElems xs ++ [ ']']
  | .obj ms => '{' :: printMembers ms ++ [ '}']
/-- The JSON text of the elements of an array, separated by commas. -/
def printElems : List Json → List Char
  | [] => []
  | [x] => printValue x
  | x :: y :: xs => printValue x ++ ',' :: printElems (y :: xs)
/-- The JSON text of the members of an object, separated by commas. -/
def printMembers : List (String × Json) → List Char
  | [] => []
  | [(k, v)] => printString k ++ ':' :: printValue v
  | (k, v) :: m :: ms => printString k ++ ':' :: printValue v ++ ',' :: printMembers (m :: ms)
end

/-! ### Parsing (`JSON.parse`) -/

/-- JSON white space. -/
def isWs (c : Char) : Bool := c = ' ' ∨ c = '\t' ∨ c = '\n' ∨ c = '\r'

/-- Drop leading white space. -/
def skipWs : List Char → List Char
  | [] => []
  | c :: cs => if isWs c then skipWs cs else c :: cs

/-- The value of a decimal digit character. -/
def digitVal? (c : Char) : Option Nat :=
  if 48 ≤ c.toNat ∧ c.toNat ≤ 57 then some (c.toNat - 48) else none

/-- The longest prefix of decimal digits, as digit values, and the rest. -/
def takeDigits : List Char → List Nat × List Char
  | [] => ([], [])
  | c :: cs =>
    match digitVal? c with
    | some d => ((d :: (takeDigits cs).1), (takeDigits cs).2)
    | none => ([], c :: cs)

/-- The value of a list of decimal digits, most significant first. -/
def ofDigits (ds : List Nat) : Nat := ds.foldl (fun a d => 10 * a + d) 0

/-- An optional leading minus sign. -/
def stripMinus : List Char → Bool × List Char
  | [] => (false, [])
  | c :: cs => if c = '-' then (true, cs) else (false, c :: cs)

/-- An optional fraction: a point and at least one digit. -/
def parseFrac : List Char → Option (List Nat × List Char)
  | [] => some ([], [])
  | c :: cs =>
    if c = '.' then
      match takeDigits cs with
      | ([], _) => none
      | (d :: ds, rest) => some (d :: ds, rest)
    else some ([], c :: cs)

/-- An optional sign of an exponent. -/
def stripSign : List Char → Bool × List Char
  | [] => (false, [])
  | c :: cs => if c = '-' then (true, cs) else if c = '+' then (false, cs) else (false, c :: cs)

/-- An optional exponent: `e` or `E`, an optional sign and at least one digit. -/
def parseExp : List Char → Option (Int × List Char)
  | [] => some (0, [])
  | c :: cs =>
    if c = 'e' ∨ c = 'E' then
      match takeDigits (stripSign cs).2 with
      | ([], _) => none
      | (d :: ds, rest) =>
        some (if (stripSign cs).1 then -(ofDigits (d :: ds) : Int) else (ofDigits (d :: ds) : Int), rest)
    else some (0, c :: cs)

/-- A JSON number literal at the head of the input. -/
def parseNumber (cs : List Char) : Option (JsNum × List Char) :=
  match takeDigits (stripMinus cs).2 with
  | ([], _) => none
  | (d :: ds, cs2) =>
    if d = 0 ∧ ds ≠ [] then none
    else
      match parseFrac cs2 with
      | none => none
      | some (fp, cs3) =>
        match parseExp cs3 with
        | none => none
        | some (x, cs4) =>
          some (JsNum.ofParts (stripMinus cs).1 (ofDigits (d :: ds ++ fp)) fp.length x, cs4)

/-- The value of a hexadecimal digit character. -/
def hexVal? (c : Char) : Option Nat :=
  if 48 ≤ c.toNat ∧ c.toNat ≤ 57 then some (c.toNat - 48)
  else if 97 ≤ c.toNat ∧ c.toNat ≤ 102 then some (c.toNat - 87)
  else if 65 ≤ c.toNat ∧ c.toNat ≤ 70 then some (c.toNat - 55)
  else none

/-- The code unit written by four hexadecimal digits. -/
def parseHex4 (a b c d : Char) : Option Nat :=
  match hexVal? a, hexVal? b, hexVal? c, hexVal? d with
  | some x, some y, some z, some w => some (((x * 16 + y) * 16 + z) * 16 + w)
  | _, _, _, _ => none

/-- The character a one-letter escape stands for. -/
def unescape? (e : Char) : Option Char :=
  if e = '"' then some '"'
  else if e = '\\' then some '\\'
  else if e = '/' then some '/'
  else if e = 'b' then some '\x08'
  else if e = 'f' then some '\x0c'
  else if e = 'n' then some '\n'
  else if e = 'r' then some '\r'
  else if e = 't' then some '\t'
  else none

/-- The low surrogate written `\uXXXX` at the head of the input, if any. -/
def lowSurrogate? : List Char → Option (Nat × List Char)
  | b :: u :: h1 :: h2 :: h3 :: h4 :: rest =>
    if b = '\\' ∧ u = 'u' then
      match parseHex4 h1 h2 h3 h4 with
      | some lo => if 0xDC00 ≤ lo ∧ lo < 0xE000 then some (lo, rest) else none
      | none => none
    else none
  | _ => none

/-- The body of a string literal up to and including the closing quote;
`acc` holds the characters read so far, last first. A `\u` escape of half a
surrogate pair has no scalar value and reads as U+FFFD. -/
def parseStringBody : Nat → List Char → List Char → Option (String × List Char)
  | 0, _, _ => none
  | _ + 1, [], _ => none
  | fuel + 1, c :: cs, acc =>
    if c = '"' then some (String.mk acc.reverse, cs)
    else if c = '\\' then
      match cs with
      | [] => none
      | e :: rest =>
        if e = 'u' then
          match rest with
          | h1 :: h2 :: h3 :: h4 :: rest2 =>
            match parseHex4 h1 h2 h3 h4 with
            | none => none
            | some hi =>
              if 0xD800 ≤ hi ∧ hi < 0xDC00 then
                match lowSurrogate? rest2 with
                | some (lo, rest3) =>
                  parseStringBody fuel rest3
                    (Char.ofNat (0x10000 + (hi - 0xD800) * 0x400 + (lo - 0xDC00)) :: acc)
                | none => parseStringBody fuel rest2 (Char.ofNat 0xFFFD :: acc)
              else if 0xDC00 ≤ hi ∧ hi < 0xE000 then
                parseStringBody fuel rest2 (Char.ofNat 0xFFFD :: acc)
              else parseStringBody fuel rest2 (Char.ofNat hi :: acc)
          | _ => none
        else
          match unescape? e with
          | some ch => parseStringBody fuel rest (ch :: acc)
          | none => none
    else if c.toNat < 32 then none
    else parseStringBody fuel cs (c :: acc)

/-- A string literal whose opening quote has been read. -/
def parseString (cs : List Char) : Option (String × List Char) :=
  parseStringBody cs.length cs []

/-- The input after the literal `lit`, when the input starts with it. -/
def stripLit : List Char → List Char → Option (List Char)
  | [], cs => some cs
  | _ :: _, [] => none
  | l :: ls, c :: cs => if l = c then stripLit ls cs else none

/-- Set member `k` of an object to `v`: an existing member keeps its place
and takes the new value (a repeated key in a JSON text), a new one goes last. -/
def setMember : List (String × Json) → String → Json → List (String × Json)
  | [], k, v => [(k, v)]
  | (k', v') :: ms, k, v => if k' = k then (k, v) :: ms else (k', v') :: setMember ms k v

/-- The elements of an array after the opening bracket, the first of which is
at the head of the input; `pv` parses one value. -/
def parseElems (pv : List Char → Option (Json × List Char)) :
    Nat → List Char → List Json → Option (List Json × List Char)
  | 0, _, _ => none
  | fuel + 1, cs, acc =>
    match pv cs with
    | none => none
    | some (v, rest) =>
      match skipWs rest with
      | [] => none
      | c :: rest2 =>
        if c = ',' then parseElems pv fuel rest2 (v :: acc)
        else if c = ']' then some ((v :: acc).reverse, rest2)
        else none

/-- The members of an object after the opening brace, the first of which is
at the head of the input; `pv` parses one value. -/
def parseMembers (pv : List Char → Option (Json × List Char)) :
    Nat → List Char → List (String × Json) → Option (List (String × Json) × List Char)
  | 0, _, _ => none
  | fuel + 1, cs, acc =>
    match skipWs cs with
    | [] => none
    | q :: rest =>
      if q = '"' then
        match parseString rest with
        | none => none
        | some (k, rest2) =>
          match skipWs rest2 with
          | [] => none
          | c :: rest3 =>
            if c = ':' then
              match pv rest3 with
              | none => none
              | some (v, rest4) =>
                match skipWs rest4 with
                | [] => none
                | d :: rest5 =>
                  if d = ',' then parseMembers pv fuel rest5 (setMember acc k v)
                  else if d = '}' then some (setMember acc k v, rest5)
                  else none
            else none
      else none

/-- One JSON value at the head of the input, after optional white space, and
the rest of the input. The first argument bounds the nesting depth and the
number of elements of any one array or object. -/
def parseValue : Nat → List Char → Option (Json × List Char)
  | 0, _ => none
  | fuel + 1, cs =>
    match skipWs cs with
    | [] => none
    | c :: rest =>
      if c = '{' then
        match skipWs rest with
        | [] => none
        | d :: rest2 =>
          if d = '}' then some (Json.obj [], rest2)
          else
            match parseMembers (parseValue fuel) fuel (d :: rest2) [] with
            | some (ms, rest3) => some (Json.obj ms, rest3)
            | none => none
      else if c = '[' then
        match skipWs rest with
        | [] => none
        | d :: rest2 =>
          if d = ']' then some (Json.arr [], rest2)
          else
            match parseElems (parseValue fuel) fuel (d :: rest2) [] with
            | some (xs, rest3) => some (Json.arr xs, rest3)
            | none => none
      else if c = '"' then
        match parseString rest with
        | some (s, rest2) => some (Json.str s, rest2)
        | none => none
      else if c = 't' then
        match stripLit [ 'r', 'u', 'e'] rest with
        | some rest2 => some (Json.bool true, rest2)
        | none => none
      else if c = 'f' then
        match stripLit [ 'a', 'l', 's', 'e'] rest with
        | some rest2 => some (Json.bool false, rest2)
        | none => none
      else if c = 'n' then
        match stripLit [ 'u', 'l', 'l'] rest with
        | some rest2 => some (Json.null, rest2)
        | none => none
      else
        match parseNumber (c :: rest) with
        | some (n, rest2) => some (Json.num n, rest2)
        | none => none

namespace JSON

/-- The text `JSON.stringify(value)` of a JSON value. -/
def stringify (v : Json) : String := String.mk (printValue v)

/-- The result of `JSON.parse(text)`: the value the whole text denotes, or a
`SyntaxError`. -/
def parse (text : String) : Except JsError Json :=
  match parseValue (text.data.length + 1) text.data with
  | some (v, rest) =>
    match skipWs rest with
    | [] => Except.ok v
    | _ :: _ => Except.error JsError.syntaxError
  | none => Except.error JsError.syntaxError

end JSON

/-! ## JavaScript values: property access and truthiness -/

/-- The value of member `k` of a member list (`undefined` when absent). -/
def lookupMember : List (String × Json) → String → JsVal
  | [], _ => none
  | (k', v) :: ms, k => if k' = k then some v else lookupMember ms k

/-- Property read `value.key` for a key that no prototype defines (such as
`error`, `cafes`, `lat`, `lon`): reading from `null` raises a `TypeError`, an
object yields its member, any other value yields `undefined`. -/
def getProp : Json → String → Except JsError JsVal
  | Json.null, _ => Except.error JsError.typeError
  | Json.obj ms, k => Except.ok (lookupMember ms k)
  | _, _ => Except.ok none

/-- Truthiness of a JavaScript value, as `if (value)` tests it. -/
def truthy : JsVal → Bool
  | none => false
  | some Json.null => false
  | some (Json.bool b) => b
  | some (Json.num n) => decide (n.mant ≠ 0)
  | some (Json.str s) => decide (s ≠ "")
  | some (Json.arr _) => true
  | some (Json.obj _) => true

/-! ## Data model -/

/-- The identifier of a cafe: an integer or a string. -/
inductive CafeId where
  | int (n : Int)
  | str (s : String)
deriving DecidableEq

/-- A cafe record `{id, name, lat, lon}` as the search API delivers it. -/
structure Cafe where
  id : CafeId
  name : String
  lat : JsNum
  lon : JsNum
deriving DecidableEq

/-- The JavaScript value of an identifier. -/
def CafeId.toJson : CafeId → Json
  | CafeId.int n => Json.num (JsNum.ofInt n)
  | CafeId.str s => Json.str s

/-- The JavaScript object a cafe record is. -/
def Cafe.toJson (c : Cafe) : Json :=
  Json.obj [("id", c.id.toJson), ("name", Json.str c.name), ("lat", Json.num c.lat),
    ("lon", Json.num c.lon)]

/-- The JavaScript array a list of cafe records is. -/
def favoritesValue (fs : List Cafe) : Json := Json.arr (fs.map Cafe.toJson)

/-- The browser's `localStorage`: a string kept under each key, or nothing. -/
structure Storage where
  getItem : String → Option String

/-- The storage after `localStorage.setItem(key, value)`. -/
def Storage.setItem (s : Storage) (key value : String) : Storage :=
  ⟨fun k => if k = key then some value else s.getItem k⟩

/-- The state of the `App` component (its `useState` cells), the browser's
`localStorage` and the messages shown by `alert` so far. -/
structure AppState where
  city : String
  cafes : JsVal
  center : JsVal × JsVal
  loading : Bool
  favorites : List Cafe
  userLocation : Option (JsNum × JsNum)
  localStorage : Storage
  alerts : List JsVal

/-! ## The `favorites` initializer (lines 42-45) -/

/-- The initializer of the `favorites` state:
`const saved = localStorage.getItem("favorites");`
`return saved ? JSON.parse(saved) : [];`. -/
def favoritesInitializer (localStorage : Storage) : Except JsError Json :=
  match localStorage.getItem "favorites" with
  | none => Except.ok (Json.arr [])
  | some saved => if saved ≠ "" then JSON.parse saved else Except.ok (Json.arr [])

/-! ## `toggleFavorite` (lines 103-114) -/

/-- The test `favorites.find((f) => f.id === id)` read as a condition, as in
`if (exists)` and in `isFav ? ... : ...`: a found record is an object, hence
truthy, and `undefined` is falsy. -/
def isFav (favorites : List Cafe) (id : CafeId) : Bool :=
  (favorites.find? (fun f => f.id == id)).isSome

/-- The list `newFavorites` computed by `toggleFavorite(cafe)`. -/
def newFavorites (favorites : List Cafe) (cafe : Cafe) : List Cafe :=
  match favorites.find? (fun f => f.id == cafe.id) with
  | some _ => favorites.filter (fun f => f.id != cafe.id)
  | none => favorites ++ [cafe]

/-- The effect of `toggleFavorite(cafe)`: `setFavorites(newFavorites)` and
`localStorage.setItem("favorites", JSON.stringify(newFavorites))`. -/
def toggleFavorite (st : AppState) (cafe : Cafe) : AppState :=
  { st with
    favorites := newFavorites st.favorites cafe
    localStorage :=
      st.localStorage.setItem "favorites"
        (JSON.stringify (favoritesValue (newFavorites st.favorites cafe))) }

/-! ## `handleSearch` (lines 83-100) -/

/-- What `await fetch(url)` followed by reading the body produces: the
promise rejects, or a response arrives with some body text. -/
inductive FetchOutcome where
  | rejected
  | response (body : String)

/-- The `catch` block: `alert("Error fetching cafes")`. -/
def searchCatch (st : AppState) : AppState :=
  { st with alerts := st.alerts ++ [some (Json.str "Error fetching cafes")] }

/-- The `try` block with its `catch`, statement by statement:
`await fetch(...)`, `await res.json()`, the test `if (data.error)`, then
either `alert(data.error)` or `setCafes(data.cafes)` followed by
`setCenter([data.lat, data.lon])`. Any exception runs the `catch` block on
the state reached so far. -/
def searchBody (st : AppState) : FetchOutcome → AppState
  | FetchOutcome.rejected => searchCatch st
  | FetchOutcome.response body =>
    match JSON.parse body with
    | Except.error _ => searchCatch st
    | Except.ok data =>
      match getProp data "error" with
      | Except.error _ => searchCatch st
      | Except.ok err =>
        if truthy err then { st with alerts := st.alerts ++ [err] }
        else
          match getProp data "cafes" with
          | Except.error _ => searchCatch st
          | Except.ok cafes =>
            match getProp data "lat", getProp data "lon" with
            | Except.ok lat, Except.ok lon => { st with cafes := cafes, center := (lat, lon) }
            | _, _ => searchCatch { st with cafes := cafes }

/-- The effect of `handleSearch(e)` once the request has settled:
`setLoading(true)`, the `try`/`catch`, `setLoading(false)`. -/
def handleSearch (st : AppState) (outcome : FetchOutcome) : AppState :=
  { searchBody { st with loading := true } outcome with loading := false }

/-! ## `getDistance` (lines 68-80) -/

/-- The members of the `Math` object that `getDistance` uses. -/
structure JsMath (α : Type) where
  PI : α
  sin : α → α
  cos : α → α
  sqrt : α → α
  atan2 : α → α → α

/-- The haversine term `a` of `getDistance`, over any field of numbers. The
program evaluates it in IEEE doubles, with rounding after every operation; no
field models that, so a statement about this definition at the real numbers
is a statement about the formula, not about the rounded result. -/
def haversineA {α : Type} [Field α] (Math : JsMath α) (lat1 lon1 lat2 lon2 : α) : α :=
  let dLat := ((lat2 - lat1) * Math.PI) / 180
  let dLon := ((lon2 - lon1) * Math.PI) / 180
  Math.sin (dLat / 2) * Math.sin (dLat / 2) +
    Math.cos ((lat1 * Math.PI) / 180) *
      Math.cos ((lat2 * Math.PI) / 180) *
      Math.sin (dLon / 2) *
      Math.sin (dLon / 2)

/-- The distance in km between two lat/lon points, `getDistance`, over any
field of numbers and any `Math` object on it. As with `haversineA`, the real
numbers give the formula without rounding and without `NaN`. -/
def getDistance {α : Type} [Field α] (Math : JsMath α) (lat1 lon1 lat2 lon2 : α) : α :=
  let R : α := 6371
  let a := haversineA Math lat1 lon1 lat2 lon2
  let c := 2 * Math.atan2 (Math.sqrt a) (Math.sqrt (1 - a))
  R * c

/-! ## Specification-level predicates -/

/-- No two records of the list share an `id`. -/
def UniqueById (fs : List Cafe) : Prop := fs.Pairwise (fun a b => a.id ≠ b.id)

instance (fs : List Cafe) : Decidable (UniqueById fs) := by
  unfold UniqueById; infer_instance

/-! ## Sample data -/

/-- The empty `localStorage`. -/
def emptyStorage : Storage := ⟨fun _ => none⟩

/-- The state of `App` at its first render with the given stored favorites:
no city, no results, the map centred on Paris, no user location. -/
def initialState (localStorage : Storage) (favorites : List Cafe) : AppState :=
  { city := ""
    cafes := some (Json.arr [])
    center := (some (Json.num ⟨488566, 4, by decide⟩), some (Json.num ⟨23522, 4, by decide⟩))
    loading := false
    favorites := favorites
    userLocation := none
    localStorage := localStorage
    alerts := [] }

/-- A sample cafe with an integer id. -/
def sampleCafe (id : Int) (name : String) : Cafe :=
  ⟨CafeId.int id, name, JsNum.ofInt 10, JsNum.ofInt 20⟩

/-! ## Predicates used in the statements about parsing -/

/-- The input ends here or goes on with a character that cannot continue a
number literal (no digit, point or exponent mark). -/
def numberEnd (rest : List Char) : Prop :=
  ∀ c ∈ rest.head?, digitVal? c = none ∧ c ≠ '.' ∧ c ≠ 'e' ∧ c ≠ 'E'

/-! ## Favorites: membership and toggling -/

theorem isFav_eq_true_iff (fs : List Cafe) (x : CafeId) :
    isFav fs x = true ↔ ∃ f ∈ fs, f.id = x := by
  simp [isFav, List.find?_isSome]

theorem isFav_eq_false_iff (fs : List Cafe) (x : CafeId) :
    isFav fs x = false ↔ ∀ f ∈ fs, f.id ≠ x := by
  rw [← Bool.not_eq_true, isFav_eq_true_iff]
  simp

theorem newFavorites_of_isFav (fs : List Cafe) (c : Cafe) (h : isFav fs c.id = true) :
    newFavorites fs c = fs.filter (fun f => f.id != c.id) := by
  unfold isFav at h
  unfold newFavorites
  cases hf : fs.find? (fun f => f.id == c.id) with
  | none => simp [hf] at h
  | some _ => rfl

theorem newFavorites_of_not_isFav (fs : List Cafe) (c : Cafe) (h : isFav fs c.id = false) :
    newFavorites fs c = fs ++ [c] := by
  unfold isFav at h
  unfold newFavorites
  cases hf : fs.find? (fun f => f.id == c.id) with
  | none => rfl
  | some _ => simp [hf] at h

theorem mem_newFavorites_of_isFav (fs : List Cafe) (c : Cafe) (h : isFav fs c.id = true)
    (f : Cafe) : f ∈ newFavorites fs c ↔ f ∈ fs ∧ f.id ≠ c.id := by
  rw [newFavorites_of_isFav fs c h]
  simp [List.mem_filter]

theorem isFav_newFavorites (fs : List Cafe) (c : Cafe) (x : CafeId) :
    isFav (newFavorites fs c) x = if c.id = x then !(isFav fs x) else isFav fs x := by
  cases h : isFav fs c.id with
  | true =>
    by_cases hx : c.id = x
    · subst hx
      rw [if_pos rfl, h]
      rw [Bool.not_true, isFav_eq_false_iff]
      intro f hf
      exact ((mem_newFavorites_of_isFav fs c h f).1 hf).2
    · rw [if_neg hx]
      rw [Bool.eq_iff_iff, isFav_eq_true_iff, isFav_eq_true_iff]
      constructor
      · rintro ⟨f, hf, hfx⟩
        exact ⟨f, ((mem_newFavorites_of_isFav fs c h f).1 hf).1, hfx⟩
      · rintro ⟨f, hf, hfx⟩
        refine ⟨f, (mem_newFavorites_of_isFav fs c h f).2 ⟨hf, ?_⟩, hfx⟩
        intro hc
        exact hx (hc.symm.trans hfx)
  | false =>
    rw [newFavorites_of_not_isFav fs c h]
    by_cases hx : c.id = x
    · subst hx
      rw [if_pos rfl, h]
      rw [Bool.not_false, isFav_eq_true_iff]
      exact ⟨c, by simp, rfl⟩
    · rw [if_neg hx]
      rw [Bool.eq_iff_iff, isFav_eq_true_iff, isFav_eq_true_iff]
      constructor
      · rintro ⟨f, hf, hfx⟩
        rcases List.mem_append.1 hf with hf | hf
        · exact ⟨f, hf, hfx⟩
        · rw [List.mem_singleton] at hf
          subst hf
          exact absurd hfx hx
      · rintro ⟨f, hf, hfx⟩
        exact ⟨f, List.mem_append_left _ hf, hfx⟩

theorem uniqueById_newFavorites (fs : List Cafe) (c : Cafe) (h : UniqueById fs) :
    UniqueById (newFavorites fs c) := by
  cases hfav : isFav fs c.id with
  | true =>
    rw [newFavorites_of_isFav fs c hfav]
    exact List.Pairwise.filter _ h
  | false =>
    rw [newFavorites_of_not_isFav fs c hfav]
    unfold UniqueById
    rw [List.pairwise_append]
    refine ⟨h, List.pairwise_singleton _ _, ?_⟩
    intro a ha b hb
    rw [List.mem_singleton] at hb
    subst hb
    exact (isFav_eq_false_iff fs b.id).1 hfav a ha

theorem favorites_toggleFavorite (st : AppState) (c : Cafe) :
    (toggleFavorite st c).favorites = newFavorites st.favorites c := rfl

theorem favorites_foldl_toggleFavorite (cs : List Cafe) (st : AppState) :
    (cs.foldl toggleFavorite st).favorites = cs.foldl newFavorites st.favorites := by
  induction cs generalizing st with
  | nil => rfl
  | cons c cs ih => simp only [List.foldl_cons]; rw [ih]; rfl

theorem isFav_foldl_newFavorites (cs : List Cafe) (fs : List Cafe) (x : CafeId) :
    isFav (cs.foldl newFavorites fs) x
      = xor (isFav fs x) (decide (Odd (cs.filter (fun c => c.id = x)).length)) := by
  induction cs generalizing fs with
  | nil => simp
  | cons c cs ih =>
    simp only [List.foldl_cons]
    rw [ih, isFav_newFavorites]
    by_cases hx : c.id = x
    · simp only [hx, if_true, List.filter_cons, decide_True, List.length_cons, Nat.odd_add_one]
      cases isFav fs x <;> by_cases ho : Odd (List.filter (fun c => decide (c.id = x)) cs).length <;>
        simp [ho]
    · simp [hx, List.filter_cons]

theorem uniqueById_foldl_newFavorites (cs : List Cafe) (fs : List Cafe) (h : UniqueById fs) :
    UniqueById (cs.foldl newFavorites fs) := by
  induction cs generalizing fs with
  | nil => exact h
  | cons c cs ih => exact ih _ (uniqueById_newFavorites fs c h)

theorem filter_ne_id_of_split (pre post : List Cafe) (old c : Cafe) (hid : old.id = c.id)
    (h : UniqueById (pre ++ old :: post)) :
    (pre ++ old :: post).filter (fun f => f.id != c.id) = pre ++ post := by
  unfold UniqueById at h
  rw [List.pairwise_append] at h
  obtain ⟨_, hpost, hcross⟩ := h
  rw [List.pairwise_cons] at hpost
  have hpre : pre.filter (fun f => f.id != c.id) = pre := by
    rw [List.filter_eq_self]
    intro a ha
    have := hcross a ha old (List.mem_cons_self _ _)
    simpa [hid] using this
  have hpo : post.filter (fun f => f.id != c.id) = post := by
    rw [List.filter_eq_self]
    intro a ha
    have := hpost.1 a ha
    simp only [bne_iff_ne, ne_eq]
    intro hc
    exact this (hid.trans hc.symm)
  rw [List.filter_append, List.filter_cons, hpre, hpo]
  simp [hid]

/-! ## Claims about `toggleFavorite` -/

/-- Claim C1. `toggleFavorite(cafe)` computes the new favorites list thus: when
some element has the id of `cafe`, the result is the list with every element
of that id removed, comparing ids only, the remaining elements in their
original order; otherwise it is the list with `cafe` appended last. From the
empty list, toggling a cafe of id 1, one of id 2 and again one of id 1 gives
the lists of ids `[1]`, `[1, 2]`, `[2]`. -/
theorem C1_toggleFavorite_spec (st : AppState) (c : Cafe) :
    ((∃ f ∈ st.favorites, f.id = c.id) →
        (toggleFavorite st c).favorites = st.favorites.filter (fun f => decide (f.id ≠ c.id)) ∧
        (toggleFavorite st c).favorites.Sublist st.favorites ∧
        ∀ f, f ∈ (toggleFavorite st c).favorites ↔ f ∈ st.favorites ∧ f.id ≠ c.id) ∧
    ((¬ ∃ f ∈ st.favorites, f.id = c.id) →
        (toggleFavorite st c).favorites = st.favorites ++ [c]) ∧
    (∀ a b a2 : Cafe, a.id = CafeId.int 1 → b.id = CafeId.int 2 → a2.id = CafeId.int 1 →
        st.favorites = [] →
        (toggleFavorite st a).favorites = [a] ∧
        (toggleFavorite (toggleFavorite st a) b).favorites = [a, b] ∧
        (toggleFavorite (toggleFavorite (toggleFavorite st a) b) a2).favorites = [b]) := by
  refine ⟨?_, ?_, ?_⟩
  · intro h
    have hfav := (isFav_eq_true_iff st.favorites c.id).2 h
    have heq : (toggleFavorite st c).favorites
        = st.favorites.filter (fun f => decide (f.id ≠ c.id)) := by
      rw [favorites_toggleFavorite, newFavorites_of_isFav _ _ hfav]
      congr 1
      funext f
      by_cases hh : f.id = c.id <;> simp [hh]
    refine ⟨heq, ?_, ?_⟩
    · rw [heq]; exact List.filter_sublist _
    · intro f
      rw [favorites_toggleFavorite]
      exact mem_newFavorites_of_isFav _ _ hfav f
  · intro h
    have hfav : isFav st.favorites c.id = false := by
      rw [← Bool.not_eq_true, isFav_eq_true_iff]; exact h
    rw [favorites_toggleFavorite, newFavorites_of_not_isFav _ _ hfav]
  · intro a b a2 ha hb ha2 hst
    simp only [favorites_toggleFavorite, hst]
    simp [newFavorites, ha, hb, ha2]

/-- Witness for C1: the scenario of the specification on concrete records. -/
theorem C1_toggleFavorite_spec_witness :
    (toggleFavorite (initialState emptyStorage []) (sampleCafe 1 "A")).favorites
      = [sampleCafe 1 "A"] ∧
    (toggleFavorite (toggleFavorite (initialState emptyStorage []) (sampleCafe 1 "A"))
      (sampleCafe 2 "B")).favorites = [sampleCafe 1 "A", sampleCafe 2 "B"] ∧
    (toggleFavorite (toggleFavorite (toggleFavorite (initialState emptyStorage [])
      (sampleCafe 1 "A")) (sampleCafe 2 "B")) (sampleCafe 1 "A2")).favorites
      = [sampleCafe 2 "B"] :=
  (C1_toggleFavorite_spec (initialState emptyStorage []) (sampleCafe 1 "A")).2.2
    (sampleCafe 1 "A") (sampleCafe 2 "B") (sampleCafe 1 "A2") rfl rfl rfl rfl

/-- Claim C4. After any finite sequence of cafes has been passed one by one to
`toggleFavorite`, starting from the empty favorites list, the membership test
`favorites.find(f => f.id === x)` succeeds exactly when `x` is the id of an
odd number of the cafes of the sequence. -/
theorem C4_contains_iff_odd_toggles (st : AppState) (h : st.favorites = [])
    (cs : List Cafe) (x : CafeId) :
    isFav (cs.foldl toggleFavorite st).favorites x = true
      ↔ Odd (cs.filter (fun c => c.id = x)).length := by
  rw [favorites_foldl_toggleFavorite, isFav_foldl_newFavorites, h]
  simp [isFav]

/-- Witness for C4: ids 1, 2, 1, 1 toggled from the empty list; id 1 occurs
three times and is a favorite at the end, id 2 once, and id 3 never. -/
theorem C4_contains_iff_odd_toggles_witness :
    (initialState emptyStorage []).favorites = [] ∧
    isFav ([sampleCafe 1 "A", sampleCafe 2 "B", sampleCafe 1 "A", sampleCafe 1 "A"].foldl
      toggleFavorite (initialState emptyStorage [])).favorites (CafeId.int 1) = true :=
  ⟨rfl, (C4_contains_iff_odd_toggles (initialState emptyStorage []) rfl
    [sampleCafe 1 "A", sampleCafe 2 "B", sampleCafe 1 "A", sampleCafe 1 "A"]
    (CafeId.int 1)).2 (by decide)⟩

/-- Claim C5. Uniqueness by id is an invariant of the favorites state: when no
two favorites share an id, none do after `toggleFavorite(c)`, for every cafe
`c`; hence every list reached from the empty list by toggles is unique by id. -/
theorem C5_unique_by_id_invariant :
    (∀ (st : AppState) (c : Cafe), UniqueById st.favorites →
        UniqueById (toggleFavorite st c).favorites) ∧
    (∀ (st : AppState) (cs : List Cafe), st.favorites = [] →
        UniqueById (cs.foldl toggleFavorite st).favorites) := by
  constructor
  · intro st c h
    exact uniqueById_newFavorites _ _ h
  · intro st cs h
    rw [favorites_foldl_toggleFavorite, h]
    exact uniqueById_foldl_newFavorites cs [] List.Pairwise.nil

/-- Witness for C5: a two-element unique list stays unique when a new id is
toggled. -/
theorem C5_unique_by_id_invariant_witness :
    UniqueById (initialState emptyStorage [sampleCafe 1 "A", sampleCafe 2 "B"]).favorites ∧
    UniqueById (toggleFavorite (initialState emptyStorage [sampleCafe 1 "A", sampleCafe 2 "B"])
      (sampleCafe 3 "C")).favorites :=
  ⟨by decide, C5_unique_by_id_invariant.1 _ _ (by decide)⟩

/-- Claim C6. Toggling the same cafe twice in a row on a favorites list that is
unique by id: when the id was absent the list is exactly restored; when it was
present the list keeps its other members in their order and the toggled item,
removed by the first toggle, is appended at the end by the second. In both
cases membership of every id is restored. -/
theorem C6_toggle_twice (st : AppState) (c : Cafe) (h : UniqueById st.favorites) :
    (isFav st.favorites c.id = false →
        (toggleFavorite (toggleFavorite st c) c).favorites = st.favorites) ∧
    (isFav st.favorites c.id = true →
        ∃ pre old post, st.favorites = pre ++ old :: post ∧ old.id = c.id ∧
          (toggleFavorite (toggleFavorite st c) c).favorites = pre ++ post ++ [c]) ∧
    (∀ x, isFav (toggleFavorite (toggleFavorite st c) c).favorites x = isFav st.favorites x) := by
  simp only [favorites_toggleFavorite]
  refine ⟨?_, ?_, ?_⟩
  · intro habs
    rw [newFavorites_of_not_isFav _ _ habs]
    have hpres : isFav (st.favorites ++ [c]) c.id = true :=
      (isFav_eq_true_iff _ _).2 ⟨c, by simp, rfl⟩
    rw [newFavorites_of_isFav _ _ hpres, List.filter_append]
    have hself : st.favorites.filter (fun f => f.id != c.id) = st.favorites := by
      rw [List.filter_eq_self]
      intro a ha
      simpa using (isFav_eq_false_iff _ _).1 habs a ha
    rw [hself]
    simp
  · intro hpres
    obtain ⟨old, hmem, hid⟩ := (isFav_eq_true_iff _ _).1 hpres
    obtain ⟨pre, post, hsplit⟩ := List.append_of_mem hmem
    refine ⟨pre, old, post, hsplit, hid, ?_⟩
    rw [newFavorites_of_isFav _ _ hpres]
    have hfilt : st.favorites.filter (fun f => f.id != c.id) = pre ++ post := by
      rw [hsplit]
      exact filter_ne_id_of_split pre post old c hid (hsplit ▸ h)
    rw [hfilt]
    have habs : isFav (pre ++ post) c.id = false := by
      rw [isFav_eq_false_iff]
      intro f hf
      have hf2 : f ∈ st.favorites.filter (fun f => f.id != c.id) := hfilt ▸ hf
      simpa using (List.mem_filter.1 hf2).2
    rw [newFavorites_of_not_isFav _ _ habs]
  · intro x
    rw [isFav_newFavorites, isFav_newFavorites]
    by_cases hx : c.id = x <;> simp [hx]

/-- Witness for C6: on `[1, 2, 3]` toggling the absent id 4 twice restores
`[1, 2, 3]`, and toggling the present id 2 twice gives `[1, 3, 2]`. -/
theorem C6_toggle_twice_witness :
    UniqueById (initialState emptyStorage
      [sampleCafe 1 "A", sampleCafe 2 "B", sampleCafe 3 "C"]).favorites ∧
    (toggleFavorite (toggleFavorite
      (initialState emptyStorage [sampleCafe 1 "A", sampleCafe 2 "B", sampleCafe 3 "C"])
      (sampleCafe 4 "D")) (sampleCafe 4 "D")).favorites
      = [sampleCafe 1 "A", sampleCafe 2 "B", sampleCafe 3 "C"] ∧
    (∃ pre old post,
      (initialState emptyStorage
        [sampleCafe 1 "A", sampleCafe 2 "B", sampleCafe 3 "C"]).favorites = pre ++ old :: post ∧
      old.id = (sampleCafe 2 "B2").id ∧
      (toggleFavorite (toggleFavorite
        (initialState emptyStorage [sampleCafe 1 "A", sampleCafe 2 "B", sampleCafe 3 "C"])
        (sampleCafe 2 "B2")) (sampleCafe 2 "B2")).favorites = pre ++ post ++ [sampleCafe 2 "B2"]) :=
  ⟨by decide,
    (C6_toggle_twice
      (initialState emptyStorage [sampleCafe 1 "A", sampleCafe 2 "B", sampleCafe 3 "C"])
      (sampleCafe 4 "D") (by decide)).1 (by decide),
    (C6_toggle_twice
      (initialState emptyStorage [sampleCafe 1 "A", sampleCafe 2 "B", sampleCafe 3 "C"])
      (sampleCafe 2 "B2") (by decide)).2.1 (by decide)⟩

/-! ## `getDistance` in exact real arithmetic

The program computes in IEEE doubles. The statements of this section
instantiate `getDistance` at the real numbers, where nothing is rounded and
`Math.sqrt` never yields `NaN`; they describe the haversine formula itself.
Only the value at identical points (claim C7) carries over to the
double computation unchanged: there every intermediate value is exactly `0`
or `1`. Away from identical points the rounded term `a` can exceed `1`, for
example at `getDistance(-87.5, -180, 87.5, 0)`, where it is `1 + 2 ^ (-52)`
and the program returns `NaN`. -/

theorem haversineA_real_symm (lat1 lon1 lat2 lon2 : ℝ) :
    haversineA (⟨Real.pi, Real.sin, Real.cos, Real.sqrt,
        fun y x => Complex.arg (Complex.mk x y)⟩ : JsMath ℝ) lat2 lon2 lat1 lon1
      = haversineA (⟨Real.pi, Real.sin, Real.cos, Real.sqrt,
        fun y x => Complex.arg (Complex.mk x y)⟩ : JsMath ℝ) lat1 lon1 lat2 lon2 := by
  simp only [haversineA]
  have h1 : (lat1 - lat2) * Real.pi / 180 / 2 = -((lat2 - lat1) * Real.pi / 180 / 2) := by ring
  have h2 : (lon1 - lon2) * Real.pi / 180 / 2 = -((lon2 - lon1) * Real.pi / 180 / 2) := by ring
  rw [h1, h2, Real.sin_neg, Real.sin_neg]
  ring

theorem haversine_identity (p q : ℝ) :
    Real.sin (q - p) * Real.sin (q - p) + Real.cos (2 * p) * Real.cos (2 * q)
      = Real.cos (p + q) * Real.cos (p + q) := by
  rw [Real.sin_sub, Real.cos_add, Real.cos_two_mul, Real.cos_two_mul]
  have hp := Real.sin_sq_add_cos_sq p
  have hq := Real.sin_sq_add_cos_sq q
  linear_combination (Real.cos q ^ 2 - Real.sin q ^ 2) * hp + (2 * Real.cos p ^ 2 - 1) * hq

theorem haversineA_real_bounds (lat1 lon1 lat2 lon2 : ℝ) :
    0 ≤ haversineA (⟨Real.pi, Real.sin, Real.cos, Real.sqrt,
        fun y x => Complex.arg (Complex.mk x y)⟩ : JsMath ℝ) lat1 lon1 lat2 lon2 ∧
    haversineA (⟨Real.pi, Real.sin, Real.cos, Real.sqrt,
        fun y x => Complex.arg (Complex.mk x y)⟩ : JsMath ℝ) lat1 lon1 lat2 lon2 ≤ 1 := by
  simp only [haversineA]
  set p : ℝ := lat1 * Real.pi / 180 / 2 with hp
  set q : ℝ := lat2 * Real.pi / 180 / 2 with hq
  set s : ℝ := Real.sin ((lon2 - lon1) * Real.pi / 180 / 2) with hs
  have e1 : (lat2 - lat1) * Real.pi / 180 / 2 = q - p := by rw [hp, hq]; ring
  have e2 : lat1 * Real.pi / 180 = 2 * p := by rw [hp]; ring
  have e3 : lat2 * Real.pi / 180 = 2 * q := by rw [hq]; ring
  rw [e1, e2, e3]
  have hid := haversine_identity p q
  have hA0 : 0 ≤ Real.sin (q - p) * Real.sin (q - p) := mul_self_nonneg _
  have hA1 : Real.sin (q - p) * Real.sin (q - p) ≤ 1 := by
    have := Real.sin_sq_le_one (q - p); nlinarith
  have hB0 : 0 ≤ Real.cos (p + q) * Real.cos (p + q) := mul_self_nonneg _
  have hB1 : Real.cos (p + q) * Real.cos (p + q) ≤ 1 := by
    have := Real.cos_sq_le_one (p + q); nlinarith
  have hs0 : 0 ≤ s * s := mul_self_nonneg _
  have hs1 : s * s ≤ 1 := by
    have := Real.sin_sq_le_one ((lon2 - lon1) * Real.pi / 180 / 2); rw [← hs] at this; nlinarith
  have key : Real.sin (q - p) * Real.sin (q - p) + Real.cos (2 * p) * Real.cos (2 * q) * s * s
      = (1 - s * s) * (Real.sin (q - p) * Real.sin (q - p))
        + (s * s) * (Real.cos (p + q) * Real.cos (p + q)) := by
    rw [← hid]; ring
  rw [key]
  constructor
  · have := mul_nonneg (sub_nonneg.2 hs1) hA0
    have := mul_nonneg hs0 hB0
    linarith
  · have h3 : (1 - s * s) * (Real.sin (q - p) * Real.sin (q - p)) ≤ (1 - s * s) * 1 :=
      mul_le_mul_of_nonneg_left hA1 (sub_nonneg.2 hs1)
    have h4 : (s * s) * (Real.cos (p + q) * Real.cos (p + q)) ≤ (s * s) * 1 :=
      mul_le_mul_of_nonneg_left hB1 hs0
    linarith

/-- Claim C7. The distance from a point to itself is zero:
`getDistance(lat, lon, lat, lon) = 0` for all real `lat`, `lon`. -/
theorem C7_getDistance_self (lat lon : ℝ) :
    getDistance (⟨Real.pi, Real.sin, Real.cos, Real.sqrt,
        fun y x => Complex.arg (Complex.mk x y)⟩ : JsMath ℝ) lat lon lat lon = 0 := by
  have h1 : Complex.mk 1 0 = 1 := rfl
  simp [getDistance, haversineA, h1]

/-- The haversine formula is symmetric in exact real arithmetic. This
says nothing of the rounded double computation, in which both argument orders
can return `NaN`. -/
theorem getDistance_real_symm (lat1 lon1 lat2 lon2 : ℝ) :
    getDistance (⟨Real.pi, Real.sin, Real.cos, Real.sqrt,
        fun y x => Complex.arg (Complex.mk x y)⟩ : JsMath ℝ) lat1 lon1 lat2 lon2
      = getDistance (⟨Real.pi, Real.sin, Real.cos, Real.sqrt,
        fun y x => Complex.arg (Complex.mk x y)⟩ : JsMath ℝ) lat2 lon2 lat1 lon1 := by
  simp only [getDistance]
  rw [haversineA_real_symm lat1 lon1 lat2 lon2]

/-- In exact real arithmetic the haversine term `a` lies in `[0, 1]` and the
distance in `[0, pi * 6371]`. The code does not clamp `a`, so in doubles the
term can round above `1`, and then `Math.sqrt(1 - a)` is `NaN`. -/
theorem getDistance_real_bounds (lat1 lon1 lat2 lon2 : ℝ) :
    0 ≤ haversineA (⟨Real.pi, Real.sin, Real.cos, Real.sqrt,
        fun y x => Complex.arg (Complex.mk x y)⟩ : JsMath ℝ) lat1 lon1 lat2 lon2 ∧
    haversineA (⟨Real.pi, Real.sin, Real.cos, Real.sqrt,
        fun y x => Complex.arg (Complex.mk x y)⟩ : JsMath ℝ) lat1 lon1 lat2 lon2 ≤ 1 ∧
    0 ≤ 1 - haversineA (⟨Real.pi, Real.sin, Real.cos, Real.sqrt,
        fun y x => Complex.arg (Complex.mk x y)⟩ : JsMath ℝ) lat1 lon1 lat2 lon2 ∧
    0 ≤ getDistance (⟨Real.pi, Real.sin, Real.cos, Real.sqrt,
        fun y x => Complex.arg (Complex.mk x y)⟩ : JsMath ℝ) lat1 lon1 lat2 lon2 ∧
    getDistance (⟨Real.pi, Real.sin, Real.cos, Real.sqrt,
        fun y x => Complex.arg (Complex.mk x y)⟩ : JsMath ℝ) lat1 lon1 lat2 lon2
      ≤ Real.pi * 6371 := by
  obtain ⟨h0, h1⟩ := haversineA_real_bounds lat1 lon1 lat2 lon2
  refine ⟨h0, h1, sub_nonneg.2 h1, ?_, ?_⟩
  · simp only [getDistance]
    have harg : 0 ≤ Complex.arg (Complex.mk
        (Real.sqrt (1 - haversineA (⟨Real.pi, Real.sin, Real.cos, Real.sqrt,
          fun y x => Complex.arg (Complex.mk x y)⟩ : JsMath ℝ) lat1 lon1 lat2 lon2))
        (Real.sqrt (haversineA (⟨Real.pi, Real.sin, Real.cos, Real.sqrt,
          fun y x => Complex.arg (Complex.mk x y)⟩ : JsMath ℝ) lat1 lon1 lat2 lon2))) :=
      Complex.arg_nonneg_iff.2 (Real.sqrt_nonneg _)
    positivity
  · simp only [getDistance]
    have harg : |Complex.arg (Complex.mk
        (Real.sqrt (1 - haversineA (⟨Real.pi, Real.sin, Real.cos, Real.sqrt,
          fun y x => Complex.arg (Complex.mk x y)⟩ : JsMath ℝ) lat1 lon1 lat2 lon2))
        (Real.sqrt (haversineA (⟨Real.pi, Real.sin, Real.cos, Real.sqrt,
          fun y x => Complex.arg (Complex.mk x y)⟩ : JsMath ℝ) lat1 lon1 lat2 lon2)))|
        ≤ Real.pi / 2 :=
      Complex.abs_arg_le_pi_div_two_iff.2 (Real.sqrt_nonneg _)
    have := (abs_le.1 harg).2
    linarith

/-! ## Decimal numerals: printing then parsing -/

theorem digitVal_digitChar (d : Nat) (h : d < 10) : digitVal? (digitChar d) = some d := by
  interval_cases d <;> rfl

theorem padDigits_length (k n : Nat) : (padDigits k n).length = k := by
  induction k with
  | zero => rfl
  | succ k ih => simp [padDigits, ih]

theorem padDigits_lt (k n : Nat) : ∀ d ∈ padDigits k n, d < 10 := by
  induction k with
  | zero => intro d hd; simp [padDigits] at hd
  | succ k ih =>
    intro d hd
    simp only [padDigits, List.mem_cons] at hd
    rcases hd with hd | hd
    · rw [hd]; exact Nat.mod_lt _ (by norm_num)
    · exact ih d hd

theorem foldl_padDigits (k n a : Nat) :
    (padDigits k n).foldl (fun a d => 10 * a + d) a = a * 10 ^ k + n % 10 ^ k := by
  induction k generalizing a with
  | zero => simp [padDigits, Nat.mod_one]
  | succ k ih =>
    simp only [padDigits, List.foldl_cons]
    rw [ih]
    have h := Nat.mod_mul (x := n) (a := 10 ^ k) (b := 10)
    rw [pow_succ, h]
    ring

theorem ofDigits_append_padDigits (ds : List Nat) (k n : Nat) :
    ofDigits (ds ++ padDigits k n) = ofDigits ds * 10 ^ k + n % 10 ^ k := by
  unfold ofDigits
  rw [List.foldl_append, foldl_padDigits]

theorem numDigitsAux_pos (f n : Nat) : 1 ≤ numDigitsAux f n := by
  cases f with
  | zero => simp [numDigitsAux]
  | succ f => simp only [numDigitsAux]; split <;> omega

theorem lt_pow_numDigitsAux (f n : Nat) (h : n ≤ f) : n < 10 ^ numDigitsAux f n := by
  induction f generalizing n with
  | zero =>
    have : n = 0 := by omega
    subst this; simp [numDigitsAux]
  | succ f ih =>
    simp only [numDigitsAux]
    split
    · simpa using ‹n < 10›
    · have h1 : n / 10 ≤ f := by omega
      have h2 := ih (n / 10) h1
      rw [pow_succ]
      omega

theorem pow_numDigitsAux_le (f n : Nat) (h : n ≤ f) (h10 : 10 ≤ n) :
    10 ^ (numDigitsAux f n - 1) ≤ n := by
  induction f generalizing n with
  | zero => omega
  | succ f ih =>
    simp only [numDigitsAux]
    rw [if_neg (by omega)]
    simp only [Nat.add_sub_cancel]
    by_cases h100 : 10 ≤ n / 10
    · have h1 : n / 10 ≤ f := by omega
      have h2 := ih (n / 10) h1 h100
      have h3 := numDigitsAux_pos f (n / 10)
      obtain ⟨j, hj⟩ : ∃ j, numDigitsAux f (n / 10) = j + 1 := ⟨_, (Nat.sub_add_cancel h3).symm⟩
      rw [hj] at h2 ⊢
      simp only [Nat.add_sub_cancel] at h2
      rw [pow_succ]
      omega
    · have h4 : numDigitsAux f (n / 10) = 1 := by
        cases f with
        | zero => rfl
        | succ f => simp only [numDigitsAux]; rw [if_pos (by omega)]
      rw [h4]
      omega

theorem numDigits_pos (n : Nat) : 1 ≤ numDigits n := numDigitsAux_pos n n

theorem lt_pow_numDigits (n : Nat) : n < 10 ^ numDigits n := lt_pow_numDigitsAux n n le_rfl

theorem ofDigits_padDigits_numDigits (n : Nat) : ofDigits (padDigits (numDigits n) n) = n := by
  have h := ofDigits_append_padDigits [] (numDigits n) n
  simp only [List.nil_append] at h
  rw [h, Nat.mod_eq_of_lt (lt_pow_numDigits n)]
  simp [ofDigits]

/-- The digits of a numeral start with a non-zero digit unless there is one digit only. -/
theorem padDigits_numDigits_head (n : Nat) :
    ∃ d ds, padDigits (numDigits n) n = d :: ds ∧ ¬ (d = 0 ∧ ds ≠ []) := by
  obtain ⟨k, hk⟩ : ∃ k, numDigits n = k + 1 := ⟨_, (Nat.sub_add_cancel (numDigits_pos n)).symm⟩
  rw [hk]
  refine ⟨n / 10 ^ k % 10, padDigits k n, rfl, ?_⟩
  rintro ⟨hd, hne⟩
  have hk0 : k ≠ 0 := by
    intro h0
    subst h0
    exact hne rfl
  have h10 : 10 ≤ n := by
    by_contra hlt
    have : numDigits n = 1 := by
      unfold numDigits
      cases n with
      | zero => rfl
      | succ n => simp only [numDigitsAux]; rw [if_pos (by omega)]
    omega
  have hle : 10 ^ k ≤ n := by
    have := pow_numDigitsAux_le n n le_rfl h10
    unfold numDigits at hk
    rw [hk] at this
    simpa using this
  have hlt : n < 10 ^ (k + 1) := hk ▸ lt_pow_numDigits n
  have hpos : 0 < 10 ^ k := by positivity
  have h1 : 1 ≤ n / 10 ^ k := (Nat.one_le_div_iff hpos).2 hle
  have h2 : n / 10 ^ k < 10 := by
    rw [Nat.div_lt_iff_lt_mul hpos]
    rw [pow_succ] at hlt
    linarith
  rw [Nat.mod_eq_of_lt h2] at hd
  omega

theorem takeDigits_map_digitChar (ds : List Nat) (hds : ∀ d ∈ ds, d < 10) (rest : List Char)
    (hrest : ∀ c ∈ rest.head?, digitVal? c = none) :
    takeDigits (ds.map digitChar ++ rest) = (ds, rest) := by
  induction ds with
  | nil =>
    cases rest with
    | nil => rfl
    | cons c r =>
      have := hrest c (by simp)
      simp [takeDigits, this]
  | cons d ds ih =>
    have hd := digitVal_digitChar d (hds d (List.mem_cons_self _ _))
    have ih' := ih (fun e he => hds e (List.mem_cons_of_mem _ he))
    simp [takeDigits, hd, ih']

/-! ## Number literals: printing then parsing -/

theorem digitChar_ne_minus (d : Nat) (h : d < 10) : digitChar d ≠ '-' := by
  interval_cases d <;> decide

theorem stripMinus_digit (d : Nat) (h : d < 10) (r : List Char) :
    stripMinus (digitChar d :: r) = (false, digitChar d :: r) := by
  simp [stripMinus, digitChar_ne_minus d h]

theorem parseFrac_end (rest : List Char) (h : numberEnd rest) : parseFrac rest = some ([], rest) := by
  cases rest with
  | nil => rfl
  | cons c r =>
    have := (h c (by simp)).2.1
    simp [parseFrac, this]

theorem parseExp_end (rest : List Char) (h : numberEnd rest) : parseExp rest = some (0, rest) := by
  cases rest with
  | nil => rfl
  | cons c r =>
    have := (h c (by simp)).2.2
    simp [parseExp, this.1, this.2]

theorem parseFrac_digits (k n : Nat) (rest : List Char) (h : numberEnd rest) :
    parseFrac ('.' :: (padDigits (k + 1) n).map digitChar ++ rest)
      = some (padDigits (k + 1) n, rest) := by
  have ht := takeDigits_map_digitChar (padDigits (k + 1) n) (padDigits_lt (k + 1) n) rest
    (fun c hc => (h c hc).1)
  simp only [List.cons_append, parseFrac, if_true]
  rw [ht]
  rfl

theorem JsNum.normalize_canon (x : JsNum) : JsNum.normalize x.mant x.scale = x := by
  obtain ⟨m, s, hc⟩ := x
  cases s with
  | zero => rfl
  | succ s =>
    have h : ¬ m % 10 = 0 := by
      rcases hc with hc | hc
      · exact absurd hc (Nat.succ_ne_zero s)
      · exact hc
    simp [JsNum.normalize, h]

theorem JsNum.ofParts_print (x : JsNum) :
    JsNum.ofParts (decide (x.mant < 0)) x.mant.natAbs x.scale 0 = x := by
  have hm : (if decide (x.mant < 0) = true then -(x.mant.natAbs : Int) else (x.mant.natAbs : Int))
      = x.mant := by
    by_cases h : x.mant < 0
    · simp only [h, decide_True, if_true]; omega
    · simp only [h, decide_False]; simp only [Bool.false_eq_true, if_false]; omega
  unfold JsNum.ofParts
  simp only [hm]
  by_cases hs : x.scale = 0
  · have h0 : (0 : Int) ≤ 0 - (x.scale : Int) := by rw [hs]; simp
    rw [if_pos h0]
    obtain ⟨m, s, hc⟩ := x
    simp only at hs
    subst hs
    simp [JsNum.ofInt]
  · have h0 : ¬ (0 : Int) ≤ 0 - (x.scale : Int) := by omega
    rw [if_neg h0]
    have h1 : (-(0 - (x.scale : Int))).toNat = x.scale := by simp
    rw [h1]
    exact JsNum.normalize_canon x

theorem parseNumber_digits (neg : Bool) (ip a s : Nat) (hip : ip = a / 10 ^ s)
    (rest : List Char) (h : numberEnd rest) (pre : List Char)
    (hpre : stripMinus (pre ++ (printNat ip ++
        ((if s = 0 then [] else '.' :: (padDigits s a).map digitChar) ++ rest)))
      = (neg, printNat ip ++
        ((if s = 0 then [] else '.' :: (padDigits s a).map digitChar) ++ rest))) :
    parseNumber (pre ++ (printNat ip ++
        ((if s = 0 then [] else '.' :: (padDigits s a).map digitChar) ++ rest)))
      = some (JsNum.ofParts neg a s 0, rest) := by
  unfold parseNumber
  rw [hpre]
  simp only
  obtain ⟨d, ds, hdd, hlead⟩ := padDigits_numDigits_head ip
  have hval := ofDigits_padDigits_numDigits ip
  have hlt := padDigits_lt (numDigits ip) ip
  unfold printNat
  cases s with
  | zero =>
    simp only [if_true, List.nil_append]
    rw [takeDigits_map_digitChar _ hlt rest (fun c hc => (h c hc).1)]
    rw [hdd] at hval ⊢
    simp only [hlead, if_false]
    rw [parseFrac_end rest h]
    simp only
    rw [parseExp_end rest h]
    simp only [List.append_nil, List.length_nil, hval]
    rw [hip]; simp
  | succ k =>
    simp only [Nat.succ_ne_zero, if_false]
    rw [takeDigits_map_digitChar _ hlt _ (by intro c hc; simp at hc; subst hc; rfl)]
    rw [hdd] at hval ⊢
    simp only [hlead, if_false]
    rw [parseFrac_digits k a rest h]
    simp only
    rw [parseExp_end rest h]
    simp only [padDigits_length]
    have hv : ofDigits (d :: ds ++ padDigits (k + 1) a) = a := by
      rw [ofDigits_append_padDigits, hval, hip]
      exact Nat.div_add_mod' a (10 ^ (k + 1))
    rw [hv]

theorem printNat_cons (n : Nat) : ∃ d r, d < 10 ∧ printNat n = digitChar d :: r := by
  obtain ⟨d, ds, hdd, _⟩ := padDigits_numDigits_head n
  refine ⟨d, ds.map digitChar, ?_, ?_⟩
  · exact padDigits_lt (numDigits n) n d (by rw [hdd]; exact List.mem_cons_self _ _)
  · unfold printNat; rw [hdd]; rfl

/-- The text of a number starts with a minus sign or a digit. -/
theorem printNum_cons (x : JsNum) :
    ∃ c r, printNum x = c :: r ∧ (c = '-' ∨ ∃ d, d < 10 ∧ c = digitChar d) := by
  obtain ⟨d, r, hd, hr⟩ := printNat_cons (x.mant.natAbs / 10 ^ x.scale)
  unfold printNum
  by_cases hneg : x.mant < 0
  · refine ⟨'-', printNat (x.mant.natAbs / 10 ^ x.scale) ++
      (if x.scale = 0 then [] else '.' :: (padDigits x.scale x.mant.natAbs).map digitChar),
      ?_, Or.inl rfl⟩
    rw [if_pos hneg]
    simp
  · refine ⟨digitChar d, r ++
      (if x.scale = 0 then [] else '.' :: (padDigits x.scale x.mant.natAbs).map digitChar),
      ?_, Or.inr ⟨d, hd, rfl⟩⟩
    rw [if_neg hneg, hr]
    simp

/-- Parsing the text of a number gives the number back and stops at its end. -/
theorem parseNumber_printNum (x : JsNum) (rest : List Char) (h : numberEnd rest) :
    parseNumber (printNum x ++ rest) = some (x, rest) := by
  have key := parseNumber_digits (decide (x.mant < 0)) (x.mant.natAbs / 10 ^ x.scale)
    x.mant.natAbs x.scale rfl rest h (if x.mant < 0 then [ '-'] else [])
  have hpre : stripMinus ((if x.mant < 0 then [ '-'] else []) ++
      (printNat (x.mant.natAbs / 10 ^ x.scale) ++
        ((if x.scale = 0 then [] else '.' :: (padDigits x.scale x.mant.natAbs).map digitChar)
          ++ rest)))
      = (decide (x.mant < 0), printNat (x.mant.natAbs / 10 ^ x.scale) ++
        ((if x.scale = 0 then [] else '.' :: (padDigits x.scale x.mant.natAbs).map digitChar)
          ++ rest)) := by
    by_cases hneg : x.mant < 0
    · simp [hneg, stripMinus]
    · obtain ⟨d, r, hd, hr⟩ := printNat_cons (x.mant.natAbs / 10 ^ x.scale)
      simp only [hneg, if_false, List.nil_append, decide_False]
      rw [hr]
      exact stripMinus_digit d hd _
  have := key hpre
  rw [JsNum.ofParts_print] at this
  unfold printNum
  simpa [List.append_assoc] using this

/-! ## String literals: printing then parsing -/

theorem parseHex4_control (n : Nat) (h : n < 32) :
    parseHex4 '0' '0' (hexChar (n / 16)) (hexChar (n % 16)) = some n := by
  interval_cases n <;> rfl

theorem escapeChar_length_pos (c : Char) : 1 ≤ (escapeChar c).length := by
  unfold escapeChar
  repeat' split
  all_goals simp

theorem length_le_escapeChars (cs : List Char) : cs.length ≤ (escapeChars cs).length := by
  induction cs with
  | nil => simp [escapeChars]
  | cons c cs ih =>
    have := escapeChar_length_pos c
    simp only [escapeChars, List.length_cons, List.length_append]
    omega

/-- One character of a string: its escaped text is read back as the character. -/
theorem parseStringBody_escapeChar (fuel : Nat) (c : Char) (tail acc : List Char) :
    parseStringBody (fuel + 1) (escapeChar c ++ tail) acc = parseStringBody fuel tail (c :: acc) := by
  unfold escapeChar
  split
  · next h => subst h; simp [parseStringBody, unescape?]
  split
  · next h => subst h; simp [parseStringBody, unescape?]
  split
  · next h => subst h; simp [parseStringBody, unescape?]
  split
  · next h => subst h; simp [parseStringBody, unescape?]
  split
  · next h => subst h; simp [parseStringBody, unescape?]
  split
  · next h => subst h; simp [parseStringBody, unescape?]
  split
  · next h => subst h; simp [parseStringBody, unescape?]
  split
  · next h =>
    have hx := parseHex4_control c.toNat h
    have h3 : ¬ (55296 ≤ c.toNat) := by omega
    have h4 : ¬ (56320 ≤ c.toNat) := by omega
    simp [parseStringBody, hx, h3, h4]
  · next hq hb _ _ _ _ _ hc =>
    simp only [List.cons_append, List.nil_append, parseStringBody]
    rw [if_neg hq, if_neg hb, if_neg hc]
    rfl

theorem parseStringBody_escapeChars (cs : List Char) (fuel : Nat) (rest acc : List Char)
    (hf : cs.length < fuel) :
    parseStringBody fuel (escapeChars cs ++ '"' :: rest) acc
      = some (String.mk (acc.reverse ++ cs), rest) := by
  induction cs generalizing fuel acc with
  | nil =>
    obtain ⟨f, rfl⟩ : ∃ f, fuel = f + 1 := ⟨fuel - 1, by simp at hf; omega⟩
    simp [escapeChars, parseStringBody]
  | cons c cs ih =>
    obtain ⟨f, rfl⟩ : ∃ f, fuel = f + 1 := ⟨fuel - 1, by simp at hf; omega⟩
    simp only [escapeChars, List.append_assoc]
    rw [parseStringBody_escapeChar]
    rw [ih f (c :: acc) (by simpa using hf)]
    simp

/-- Parsing the text of a string literal, after its opening quote, gives the
string back and stops after the closing quote. -/
theorem parseString_printString (s : String) (rest : List Char) :
    parseString (escapeChars s.data ++ '"' :: rest) = some (s, rest) := by
  unfold parseString
  rw [parseStringBody_escapeChars s.data _ rest []]
  · simp
  · have := length_le_escapeChars s.data
    simp only [List.length_append, List.length_cons]
    omega

theorem printString_eq (s : String) (rest : List Char) :
    printString s ++ rest = '"' :: (escapeChars s.data ++ '"' :: rest) := by
  simp [printString]

/-! ## Values: printing then parsing -/

theorem skipWs_cons (c : Char) (cs : List Char) (h : isWs c = false) :
    skipWs (c :: cs) = c :: cs := by
  simp [skipWs, h]

theorem numberEnd_comma (r : List Char) : numberEnd (',' :: r) := by
  intro c hc
  simp only [List.head?_cons, Option.mem_def, Option.some.injEq] at hc
  subst hc
  decide

theorem numberEnd_brace (r : List Char) : numberEnd ('}' :: r) := by
  intro c hc
  simp only [List.head?_cons, Option.mem_def, Option.some.injEq] at hc
  subst hc
  decide

theorem parseValue_string (n : Nat) (s : String) (rest : List Char) :
    parseValue (n + 1) (printString s ++ rest) = some (Json.str s, rest) := by
  rw [printString_eq]
  simp only [parseValue]
  rw [skipWs_cons _ _ (by decide)]
  simp only [↓reduceIte, Char.reduceEq, parseString_printString]

theorem parseValue_of_number_head (n : Nat) (c : Char) (r : List Char)
    (hc : c = '-' ∨ ∃ d, d < 10 ∧ c = digitChar d) :
    parseValue (n + 1) (c :: r) =
      match parseNumber (c :: r) with
      | some (x, rest2) => some (Json.num x, rest2)
      | none => none := by
  have h : isWs c = false ∧ c ≠ '{' ∧ c ≠ '[' ∧ c ≠ '"' ∧ c ≠ 't' ∧ c ≠ 'f' ∧ c ≠ 'n' := by
    rcases hc with hc | ⟨d, hd, hc⟩
    · subst hc; decide
    · subst hc; interval_cases d <;> decide
  obtain ⟨hw, h1, h2, h3, h4, h5, h6⟩ := h
  simp only [parseValue]
  rw [skipWs_cons _ _ hw]
  simp only
  rw [if_neg h1, if_neg h2, if_neg h3, if_neg h4, if_neg h5, if_neg h6]

theorem parseValue_number (n : Nat) (x : JsNum) (rest : List Char) (h : numberEnd rest) :
    parseValue (n + 1) (printNum x ++ rest) = some (Json.num x, rest) := by
  obtain ⟨c, r, hcr, hc⟩ := printNum_cons x
  have hp := parseNumber_printNum x rest h
  rw [hcr] at hp ⊢
  rw [List.cons_append] at hp ⊢
  rw [parseValue_of_number_head n c _ hc, hp]

theorem parseValue_cafeId (n : Nat) (i : CafeId) (rest : List Char) (h : numberEnd rest) :
    parseValue (n + 1) (printValue i.toJson ++ rest) = some (i.toJson, rest) := by
  cases i with
  | int k => simp only [CafeId.toJson, printValue]; exact parseValue_number n _ rest h
  | str s => simp only [CafeId.toJson, printValue]; exact parseValue_string n s rest

theorem parseMembers_step_comma (pv : List Char → Option (Json × List Char)) (fuel : Nat)
    (k : String) (tv : List Char) (v : Json) (rest : List Char) (acc : List (String × Json))
    (hpv : pv (tv ++ ',' :: rest) = some (v, ',' :: rest)) :
    parseMembers pv (fuel + 1) (printString k ++ ':' :: (tv ++ ',' :: rest)) acc
      = parseMembers pv fuel rest (setMember acc k v) := by
  rw [printString_eq]
  simp only [parseMembers]
  rw [skipWs_cons _ _ (by decide)]
  simp only [↓reduceIte, parseString_printString]
  rw [skipWs_cons _ _ (by decide)]
  simp only [↓reduceIte, hpv]
  rw [skipWs_cons _ _ (by decide)]
  simp only [↓reduceIte, Char.reduceEq]

theorem parseMembers_step_close (pv : List Char → Option (Json × List Char)) (fuel : Nat)
    (k : String) (tv : List Char) (v : Json) (rest : List Char) (acc : List (String × Json))
    (hpv : pv (tv ++ '}' :: rest) = some (v, '}' :: rest)) :
    parseMembers pv (fuel + 1) (printString k ++ ':' :: (tv ++ '}' :: rest)) acc
      = some (setMember acc k v, rest) := by
  rw [printString_eq]
  simp only [parseMembers]
  rw [skipWs_cons _ _ (by decide)]
  simp only [↓reduceIte, parseString_printString]
  rw [skipWs_cons _ _ (by decide)]
  simp only [↓reduceIte, hpv]
  rw [skipWs_cons _ _ (by decide)]
  simp only [↓reduceIte, Char.reduceEq]

theorem printValue_cafe (c : Cafe) (rest : List Char) :
    printValue c.toJson ++ rest =
      '{' :: (printString "id" ++ ':' :: (printValue c.id.toJson ++ ',' ::
        (printString "name" ++ ':' :: (printString c.name ++ ',' ::
          (printString "lat" ++ ':' :: (printNum c.lat ++ ',' ::
            (printString "lon" ++ ':' :: (printNum c.lon ++ '}' :: rest)))))))) := by
  simp [Cafe.toJson, printValue, printMembers, List.append_assoc]

theorem parseValue_obj (n : Nat) (d : Char) (r : List Char) (hw : isWs d = false)
    (hd : d ≠ '}') :
    parseValue (n + 1) ('{' :: d :: r) =
      match parseMembers (parseValue n) n (d :: r) [] with
      | some (ms, rest3) => some (Json.obj ms, rest3)
      | none => none := by
  simp only [parseValue]
  rw [skipWs_cons _ _ (by decide)]
  simp only [↓reduceIte]
  rw [skipWs_cons _ _ hw]
  simp only [hd, ↓reduceIte]

theorem parseValue_arr (n : Nat) (d : Char) (r : List Char) (hw : isWs d = false)
    (hd : d ≠ ']') :
    parseValue (n + 1) ('[' :: d :: r) =
      match parseElems (parseValue n) n (d :: r) [] with
      | some (xs, rest3) => some (Json.arr xs, rest3)
      | none => none := by
  simp only [parseValue]
  rw [skipWs_cons _ _ (by decide)]
  simp only [↓reduceIte, Char.reduceEq]
  rw [skipWs_cons _ _ hw]
  simp only [hd, ↓reduceIte]

/-- Parsing the text of a cafe record gives the record back. -/
theorem parseValue_cafe (n : Nat) (c : Cafe) (rest : List Char) :
    parseValue (n + 5) (printValue c.toJson ++ rest) = some (c.toJson, rest) := by
  rw [printValue_cafe, printString_eq "id"]
  rw [parseValue_obj (n + 4) '"' _ (by decide) (by decide)]
  rw [← printString_eq "id"]
  rw [parseMembers_step_comma (parseValue (n + 4)) (n + 3) "id" _ c.id.toJson _ _
    (parseValue_cafeId _ _ _ (numberEnd_comma _))]
  rw [parseMembers_step_comma (parseValue (n + 4)) (n + 2) "name" _ (Json.str c.name) _ _
    (parseValue_string _ _ _)]
  rw [parseMembers_step_comma (parseValue (n + 4)) (n + 1) "lat" _ (Json.num c.lat) _ _
    (parseValue_number _ _ _ (numberEnd_comma _))]
  rw [parseMembers_step_close (parseValue (n + 4)) n "lon" _ (Json.num c.lon) _ _
    (parseValue_number _ _ _ (numberEnd_brace _))]
  simp [setMember, Cafe.toJson]

theorem printValue_cafe_cons (c : Cafe) (rest : List Char) :
    ∃ r, printValue c.toJson ++ rest = '{' :: r := ⟨_, printValue_cafe c rest⟩

theorem parseElems_cafes (pv : List Char → Option (Json × List Char))
    (hpv : ∀ (c : Cafe) (rest : List Char), pv (printValue c.toJson ++ rest) = some (c.toJson, rest))
    (cs : List Cafe) (c : Cafe) (fuel : Nat) (hf : cs.length < fuel) (rest : List Char)
    (acc : List Json) :
    parseElems pv fuel (printElems ((c :: cs).map Cafe.toJson) ++ ']' :: rest) acc
      = some (acc.reverse ++ (c :: cs).map Cafe.toJson, rest) := by
  induction cs generalizing c fuel acc with
  | nil =>
    obtain ⟨f, rfl⟩ : ∃ f, fuel = f + 1 := ⟨fuel - 1, by simp at hf; omega⟩
    simp only [List.map_cons, List.map_nil, printElems, parseElems]
    rw [hpv]
    simp only
    rw [skipWs_cons _ _ (by decide)]
    simp
  | cons c2 cs ih =>
    obtain ⟨f, rfl⟩ : ∃ f, fuel = f + 1 := ⟨fuel - 1, by simp at hf; omega⟩
    have ih' := ih c2 f (by simpa using hf) (c.toJson :: acc)
    simp only [List.map_cons] at ih' ⊢
    simp only [printElems, parseElems, List.append_assoc, List.cons_append]
    rw [hpv]
    simp only
    rw [skipWs_cons _ _ (by decide)]
    simp only [↓reduceIte, ih']
    simp

/-! ## The favorites list: serialize then load -/

theorem length_printValue_cafe (c : Cafe) : 5 ≤ (printValue c.toJson).length := by
  have h := congrArg List.length (printValue_cafe c [])
  simp only [List.append_nil] at h
  rw [h]
  simp only [List.length_cons, List.length_append]
  omega

theorem length_printElems_cafes (c : Cafe) (cs : List Cafe) :
    5 + cs.length ≤ (printElems ((c :: cs).map Cafe.toJson)).length := by
  induction cs generalizing c with
  | nil => simpa [printElems] using length_printValue_cafe c
  | cons c2 cs ih =>
    have h1 := ih c2
    have h2 := length_printValue_cafe c
    simp only [List.map_cons] at h1 ⊢
    simp only [printElems, List.length_append, List.length_cons]
    omega

theorem printElems_cafes_cons (c : Cafe) (cs : List Cafe) (rest : List Char) :
    ∃ r, printElems ((c :: cs).map Cafe.toJson) ++ rest = '{' :: r := by
  cases cs with
  | nil => simpa [printElems] using printValue_cafe_cons c rest
  | cons c2 cs =>
    obtain ⟨r, hr⟩ := printValue_cafe_cons c (',' :: (printElems ((c2 :: cs).map Cafe.toJson) ++ rest))
    exact ⟨r, by simpa [printElems, List.append_assoc] using hr⟩

/-- Parsing the text of a list of cafe records gives the list back: the fuel
`JSON.parse` derives from the length of the text is enough. -/
theorem parseValue_favorites (fs : List Cafe) :
    parseValue ((printValue (favoritesValue fs)).length + 1) (printValue (favoritesValue fs))
      = some (favoritesValue fs, []) := by
  cases fs with
  | nil => rfl
  | cons c cs =>
    have hlen := length_printElems_cafes c cs
    obtain ⟨r, hr⟩ := printElems_cafes_cons c cs [ ']']
    have htext : printValue (favoritesValue (c :: cs))
        = '[' :: (printElems ((c :: cs).map Cafe.toJson) ++ [ ']']) := by
      simp [favoritesValue, printValue]
    have hL : (printValue (favoritesValue (c :: cs))).length
        = ((printElems ((c :: cs).map Cafe.toJson)).length - 3) + 5 := by
      rw [htext]
      simp only [List.length_cons, List.length_append, List.length_nil]
      omega
    rw [hL]
    generalize (printElems ((c :: cs).map Cafe.toJson)).length - 3 = n at hL ⊢
    have hn : cs.length < n + 5 := by
      rw [htext] at hL
      simp only [List.length_cons, List.length_append, List.length_nil] at hL
      omega
    rw [htext, hr]
    rw [parseValue_arr (n + 5) _ _ (by decide) (by decide)]
    rw [← hr]
    rw [parseElems_cafes (parseValue (n + 5)) (fun c rest => parseValue_cafe n c rest)
      cs c (n + 5) hn [] []]
    simp [favoritesValue]

/-- The value `JSON.parse(JSON.stringify(favorites))` is `favorites`, for every
list of cafe records. -/
theorem parse_stringify_favorites (fs : List Cafe) :
    JSON.parse (JSON.stringify (favoritesValue fs)) = Except.ok (favoritesValue fs) := by
  unfold JSON.parse JSON.stringify
  simp only
  rw [parseValue_favorites]
  rfl

theorem stringify_ne_empty (fs : List Cafe) : JSON.stringify (favoritesValue fs) ≠ "" := by
  intro h
  have h2 := congrArg String.data h
  simp [JSON.stringify, favoritesValue, printValue] at h2

theorem cafeId_toJson_injective (a b : CafeId) (h : a.toJson = b.toJson) : a = b := by
  cases a <;> cases b <;> simp [CafeId.toJson, JsNum.ofInt] at h <;> simp [h]

theorem cafe_toJson_injective (a b : Cafe) (h : a.toJson = b.toJson) : a = b := by
  obtain ⟨i, n, la, lo⟩ := a
  obtain ⟨i2, n2, la2, lo2⟩ := b
  simp only [Cafe.toJson, Json.obj.injEq, List.cons.injEq, Prod.mk.injEq, true_and, and_true,
    Json.str.injEq, Json.num.injEq] at h
  obtain ⟨h1, h2, h3, h4⟩ := h
  rw [cafeId_toJson_injective _ _ h1, h2, h3, h4]

theorem favoritesValue_injective (fs gs : List Cafe) (h : favoritesValue fs = favoritesValue gs) :
    fs = gs := by
  simp only [favoritesValue, Json.arr.injEq] at h
  induction fs generalizing gs with
  | nil =>
    cases gs with
    | nil => rfl
    | cons g gs => simp at h
  | cons f fs ih =>
    cases gs with
    | nil => simp at h
    | cons g gs =>
      simp only [List.map_cons, List.cons.injEq] at h
      rw [cafe_toJson_injective _ _ h.1, ih gs h.2]

/-! ## Claims about persistence of the favorites -/

/-- Claim C2. Write-through durability: after `toggleFavorite(c)` the value
stored under the key `"favorites"` is the serialization of exactly the new
in-memory list, and the load step (the `favorites` initializer) run on that
storage returns the JavaScript value of the new in-memory list, which
determines the list. -/
theorem C2_write_through (st : AppState) (c : Cafe) :
    (toggleFavorite st c).localStorage.getItem "favorites"
      = some (JSON.stringify (favoritesValue (toggleFavorite st c).favorites)) ∧
    favoritesInitializer (toggleFavorite st c).localStorage
      = Except.ok (favoritesValue (toggleFavorite st c).favorites) ∧
    (∀ fs, Except.ok (favoritesValue fs) = favoritesInitializer (toggleFavorite st c).localStorage →
      fs = (toggleFavorite st c).favorites) := by
  have hget : (toggleFavorite st c).localStorage.getItem "favorites"
      = some (JSON.stringify (favoritesValue (toggleFavorite st c).favorites)) := by
    simp [toggleFavorite, Storage.setItem]
  have hload : favoritesInitializer (toggleFavorite st c).localStorage
      = Except.ok (favoritesValue (toggleFavorite st c).favorites) := by
    unfold favoritesInitializer
    rw [hget]
    simp only
    rw [if_pos (stringify_ne_empty _)]
    exact parse_stringify_favorites _
  refine ⟨hget, hload, ?_⟩
  intro fs hfs
  rw [hload] at hfs
  exact favoritesValue_injective _ _ (Except.ok.inj hfs)

/-- Counterexample to C3 as stated. A truncated favorites text (not valid
JSON) makes the load step raise a `SyntaxError`, and a stored text that is
valid JSON but not an array (one object) is returned as it is, not replaced
by the empty list. -/
theorem C3_counterexample :
    favoritesInitializer (emptyStorage.setItem "favorites" "[\x7b\"id\":1")
      = Except.error JsError.syntaxError ∧
    favoritesInitializer (emptyStorage.setItem "favorites" "\x7b\"id\":1\x7d")
      = Except.ok (Json.obj [("id", Json.num (JsNum.ofInt 1))]) ∧
    Json.obj [("id", Json.num (JsNum.ofInt 1))] ≠ Json.arr [] :=
  ⟨rfl, rfl, fun h => Json.noConfusion h⟩

/-- Claim C3, amended. The load step returns the empty list when the key
`"favorites"` is absent or holds the empty string. For any other content it
returns exactly what `JSON.parse` gives for that content: the parsed value
whatever its shape, or the `SyntaxError` that `JSON.parse` raises. In
particular the serialization of a list of cafe records loads as that list. -/
theorem C3_favoritesInitializer_cases (localStorage : Storage) :
    (localStorage.getItem "favorites" = none ∨ localStorage.getItem "favorites" = some "" →
      favoritesInitializer localStorage = Except.ok (Json.arr [])) ∧
    (∀ saved, localStorage.getItem "favorites" = some saved → saved ≠ "" →
      favoritesInitializer localStorage = JSON.parse saved) ∧
    (∀ fs, localStorage.getItem "favorites" = some (JSON.stringify (favoritesValue fs)) →
      favoritesInitializer localStorage = Except.ok (favoritesValue fs)) := by
  refine ⟨?_, ?_, ?_⟩
  · rintro (h | h) <;> simp [favoritesInitializer, h]
  · intro saved h hne
    simp [favoritesInitializer, h, hne]
  · intro fs h
    unfold favoritesInitializer
    rw [h]
    simp only
    rw [if_pos (stringify_ne_empty _)]
    exact parse_stringify_favorites fs

/-- Witness for C3 (amended): the absent key loads as the empty list, and a
stored one-element list of numbers loads as what `JSON.parse` gives. -/
theorem C3_favoritesInitializer_cases_witness :
    favoritesInitializer emptyStorage = Except.ok (Json.arr []) ∧
    favoritesInitializer (emptyStorage.setItem "favorites" "[5]") = JSON.parse "[5]" ∧
    JSON.parse "[5]" = Except.ok (Json.arr [Json.num (JsNum.ofInt 5)]) :=
  ⟨(C3_favoritesInitializer_cases emptyStorage).1 (Or.inl rfl),
    (C3_favoritesInitializer_cases (emptyStorage.setItem "favorites" "[5]")).2.1 "[5]" rfl
      (by decide),
    rfl⟩

/-! ## Claims about `handleSearch` -/

theorem getProp_ok_of_ok (data : Json) (k k2 : String) (v : JsVal)
    (h : getProp data k = Except.ok v) : ∃ w, getProp data k2 = Except.ok w := by
  cases data with
  | null => simp [getProp] at h
  | bool b => exact ⟨none, rfl⟩
  | num n => exact ⟨none, rfl⟩
  | str s => exact ⟨none, rfl⟩
  | arr xs => exact ⟨none, rfl⟩
  | obj ms => exact ⟨lookupMember ms k2, rfl⟩

/-- Counterexample to C10 as stated. The response body `{"error":""}` parses
and has an `error` field, yet `handleSearch` replaces the result list by
`data.cafes` (here `undefined`) and the map center by `[data.lat, data.lon]`:
the test `if (data.error)` is on the truthiness of the field, not on its
presence. -/
theorem C10_counterexample :
    JSON.parse "\x7b\"error\":\"\"\x7d" = Except.ok (Json.obj [("error", Json.str "")]) ∧
    getProp (Json.obj [("error", Json.str "")]) "error" = Except.ok (some (Json.str "")) ∧
    (handleSearch (initialState emptyStorage [])
        (FetchOutcome.response "\x7b\"error\":\"\"\x7d")).cafes = none ∧
    (initialState emptyStorage []).cafes = some (Json.arr []) ∧
    (handleSearch (initialState emptyStorage [])
        (FetchOutcome.response "\x7b\"error\":\"\"\x7d")).center = (none, none) ∧
    (handleSearch (initialState emptyStorage [])
        (FetchOutcome.response "\x7b\"error\":\"\"\x7d")).cafes
      ≠ (initialState emptyStorage []).cafes :=
  ⟨rfl, rfl, rfl, rfl, rfl, fun h => Option.noConfusion h⟩

/-- Claim C10, amended. The result list and the map center are unchanged by
`handleSearch` when the fetch throws, when the response body is not JSON, when
it is the JSON `null` (reading `data.error` throws), and when the parsed
response has a truthy `error` field. They are replaced, by `data.cafes` and
`[data.lat, data.lon]`, exactly when the response parses to a value whose
`error` is absent or falsy (`null`, `false`, `0`, the empty string). -/
theorem C10_handleSearch_frame (st : AppState) :
    ((handleSearch st FetchOutcome.rejected).cafes = st.cafes ∧
      (handleSearch st FetchOutcome.rejected).center = st.center) ∧
    (∀ body e, JSON.parse body = Except.error e →
      (handleSearch st (FetchOutcome.response body)).cafes = st.cafes ∧
      (handleSearch st (FetchOutcome.response body)).center = st.center) ∧
    (∀ body, JSON.parse body = Except.ok Json.null →
      (handleSearch st (FetchOutcome.response body)).cafes = st.cafes ∧
      (handleSearch st (FetchOutcome.response body)).center = st.center) ∧
    (∀ body data err, JSON.parse body = Except.ok data →
      getProp data "error" = Except.ok err → truthy err = true →
      (handleSearch st (FetchOutcome.response body)).cafes = st.cafes ∧
      (handleSearch st (FetchOutcome.response body)).center = st.center) ∧
    (∀ body data err, JSON.parse body = Except.ok data →
      getProp data "error" = Except.ok err → truthy err = false →
      ∃ cafes lat lon, getProp data "cafes" = Except.ok cafes ∧
        getProp data "lat" = Except.ok lat ∧ getProp data "lon" = Except.ok lon ∧
        (handleSearch st (FetchOutcome.response body)).cafes = cafes ∧
        (handleSearch st (FetchOutcome.response body)).center = (lat, lon)) := by
  refine ⟨⟨rfl, rfl⟩, ?_, ?_, ?_, ?_⟩
  · intro body e h
    simp [handleSearch, searchBody, h, searchCatch]
  · intro body h
    simp [handleSearch, searchBody, h, getProp, searchCatch]
  · intro body data err h herr ht
    simp [handleSearch, searchBody, h, herr, ht]
  · intro body data err h herr ht
    obtain ⟨cafes, hc⟩ := getProp_ok_of_ok data "error" "cafes" err herr
    obtain ⟨lat, hlat⟩ := getProp_ok_of_ok data "error" "lat" err herr
    obtain ⟨lon, hlon⟩ := getProp_ok_of_ok data "error" "lon" err herr
    refine ⟨cafes, lat, lon, hc, hlat, hlon, ?_, ?_⟩ <;>
      simp [handleSearch, searchBody, h, herr, ht, hc, hlat, hlon]

/-- Witness for C10 (amended): a response whose `error` is a non-empty string
leaves the results and the center alone; one without `error` replaces them. -/
theorem C10_handleSearch_frame_witness :
    ((handleSearch (initialState emptyStorage [])
        (FetchOutcome.response "\x7b\"error\":\"City not found\"\x7d")).cafes
      = (initialState emptyStorage []).cafes ∧
     (handleSearch (initialState emptyStorage [])
        (FetchOutcome.response "\x7b\"error\":\"City not found\"\x7d")).center
      = (initialState emptyStorage []).center) ∧
    (∃ cafes lat lon,
      getProp (Json.obj [("cafes", Json.arr []), ("lat", Json.num (JsNum.ofInt 1)),
        ("lon", Json.num (JsNum.ofInt 2))]) "cafes" = Except.ok cafes ∧
      getProp (Json.obj [("cafes", Json.arr []), ("lat", Json.num (JsNum.ofInt 1)),
        ("lon", Json.num (JsNum.ofInt 2))]) "lat" = Except.ok lat ∧
      getProp (Json.obj [("cafes", Json.arr []), ("lat", Json.num (JsNum.ofInt 1)),
        ("lon", Json.num (JsNum.ofInt 2))]) "lon" = Except.ok lon ∧
      (handleSearch (initialState emptyStorage [])
        (FetchOutcome.response "\x7b\"cafes\":[],\"lat\":1,\"lon\":2\x7d")).cafes = cafes ∧
      (handleSearch (initialState emptyStorage [])
        (FetchOutcome.response "\x7b\"cafes\":[],\"lat\":1,\"lon\":2\x7d")).center = (lat, lon)) :=
  ⟨(C10_handleSearch_frame (initialState emptyStorage [])).2.2.2.1
      "\x7b\"error\":\"City not found\"\x7d"
      (Json.obj [("error", Json.str "City not found")]) (some (Json.str "City not found"))
      rfl rfl rfl,
    (C10_handleSearch_frame (initialState emptyStorage [])).2.2.2.2
      "\x7b\"cafes\":[],\"lat\":1,\"lon\":2\x7d"
      (Json.obj [("cafes", Json.arr []), ("lat", Json.num (JsNum.ofInt 1)),
        ("lon", Json.num (JsNum.ofInt 2))]) none rfl rfl rfl⟩
